import Mathlib

/-!
# Verification of the hyperplane reactive-property core

A shallow embedding, in Lean 4, of the core of the `hyperplane` library
(`src/hyperplane.ts` / its extended revision): reactive property descriptors
backed by rxjs `BehaviorSubject` cells, attribute deserialization
(`parseAttribute`), the deduplicated change stream
(`getPropertyChangeListener` with `distinctUntilChanged`), the
connect/disconnect lifecycle subscription management in `create`, and the
template pipeline installed by `useTemplate`.

Modelling conventions:
* JavaScript values are modelled by the inductive type `JVal`; JS numbers are
  restricted to integers (floating point is outside the model) with `vNaN`
  for the not-a-number result of failed numeric coercion.
* Fallible code (thrown exceptions) is modelled with `Option`: `none` means
  the operation throws and the error propagates to the caller.
* The platform pieces the library calls into (`JSON.parse`, `Number`,
  `new Date`, `new URL`, DOM attribute access) are modelled executably at the
  level of detail the library depends on; simplifications are documented at
  each definition.
* rxjs streams are modelled by explicit event traces: a `BehaviorSubject`
  cell is its current value plus the ordered list of subsequent writes, and
  `distinctUntilChanged` is a fold over that list.
-/

namespace Hyperplane

/-! ## Values

`CVal` is the value model used for change detection: it distinguishes
primitives (compared by value under JavaScript strict equality) from heap
objects (compared by reference under strict equality, and by their contents
under structural equality). An object is a reference id paired with its
structural content. -/

inductive CVal : Type where
  | prim (n : Int)
  | obj (ref : Nat) (content : List Int)
  deriving DecidableEq, Repr

/-- JavaScript strict equality on `CVal`: primitives compare by value,
objects compare by reference identity. This is the comparison performed by
rxjs `distinctUntilChanged()` with no custom comparator. -/
def jsEq : CVal → CVal → Bool
  | .prim a, .prim b => a == b
  | .obj r _, .obj s _ => r == s
  | _, _ => false

/-- Structural (deep) equality on `CVal`: primitives compare by value,
objects compare by their contents, ignoring reference identity. -/
def structEq : CVal → CVal → Bool
  | .prim a, .prim b => a == b
  | .obj _ c, .obj _ d => c == d
  | _, _ => false

/-! ## The per-property change stream

In `getPropertyChangeListener`, each property's `BehaviorSubject` trigger is
piped through `distinctUntilChanged()`. At subscribe time the subject emits
its current value (the seed), which `distinctUntilChanged` always lets
through and remembers; each subsequent write is then emitted exactly when it
differs (under the comparator) from the last emitted value. `emitFlags eq
last ws` is the list of emit decisions for the writes `ws`, given that the
last value let through so far is `last`. -/

def emitFlags (eq : CVal → CVal → Bool) : CVal → List CVal → List Bool
  | _, [] => []
  | last, w :: ws =>
    if eq w last then false :: emitFlags eq last ws
    else true :: emitFlags eq w ws

/-- The comparison the specification describes: each write is compared
against the immediately preceding written value (the first write against the
seed), independent of any dedupe state. -/
def pairwiseFlags (eq : CVal → CVal → Bool) : CVal → List CVal → List Bool
  | _, [] => []
  | prev, w :: ws => (!eq w prev) :: pairwiseFlags eq w ws

lemma jsEq_refl (v : CVal) : jsEq v v = true := by
  cases v <;> simp [jsEq]

lemma jsEq_trans {a b c : CVal} (hab : jsEq a b = true) (hbc : jsEq b c = true) :
    jsEq a c = true := by
  cases a <;> cases b <;> cases c <;> simp_all [jsEq]

lemma jsEq_symm {a b : CVal} (hab : jsEq a b = true) : jsEq b a = true := by
  cases a <;> cases b <;> simp_all [jsEq]

/-- Key invariant behind the change stream: because the cell emits every
write, the dedupe state (last emitted value) stays strictly-equal to the last
written value, so the stateful `distinctUntilChanged` emits exactly the
writes that differ from their immediate predecessor. Stated for any `last`
strictly equal to the previous write. -/
lemma emitFlags_eq_pairwiseFlags (last prev : CVal) (ws : List CVal)
    (h : jsEq last prev = true) :
    emitFlags jsEq last ws = pairwiseFlags jsEq prev ws := by
  induction ws generalizing last prev with
  | nil => rfl
  | cons w ws ih =>
    by_cases hw : jsEq w last = true
    · have hwp : jsEq w prev = true := jsEq_trans hw h
      simp [emitFlags, pairwiseFlags, hw, hwp]
      exact ih last w (jsEq_symm hw)
    · have hwp : jsEq w prev = false := by
        by_contra hc
        have : jsEq w prev = true := by
          cases hcc : jsEq w prev
          · exact absurd hcc hc
          · rfl
        exact hw (jsEq_trans this (jsEq_symm h))
      simp [emitFlags, pairwiseFlags, hw, hwp]
      exact ih w w (jsEq_refl w)

/-- C1 (counterexample): the claim as stated is false. It asserts that the
change stream emits for a write if and only if the new value differs from the
immediately preceding value under identity/structural equality ("not just
reference equality"). With seed `obj 0 [5]` and the single write
`obj 1 [5]` — a fresh object structurally equal to the seed — the code's
stream (rxjs `distinctUntilChanged()`, which compares with JavaScript strict
equality, i.e. reference identity for objects) emits the write, while the
claim's structural comparison says the value did not change, so no event
should be emitted. -/
theorem C1_change_stream_not_structural :
    emitFlags jsEq (CVal.obj 0 [5]) [CVal.obj 1 [5]] = [true] ∧
    structEq (CVal.obj 1 [5]) (CVal.obj 0 [5]) = true ∧
    pairwiseFlags structEq (CVal.obj 0 [5]) [CVal.obj 1 [5]] = [false] := by
  refine ⟨rfl, by decide, rfl⟩

/-- C1 (amended): for every property, every seed value, and every sequence
of writes after a subscriber attaches, the change stream emits an event for
a write if and only if the newly written value differs from the immediately
preceding value (the first write is compared against the seed), where value
equality is JavaScript strict equality `===` — by-value for primitives and
reference identity for objects, not structural equality. -/
theorem C1_change_stream_dedupe_strict_eq (seed : CVal) (ws : List CVal) :
    emitFlags jsEq seed ws = pairwiseFlags jsEq seed ws :=
  emitFlags_eq_pairwiseFlags seed seed ws (jsEq_refl seed)

/-! ## Lifecycle controller

`create` keeps two arrays: `registeredObservables` (pipelines registered via
the returned `subscribe` function) and `subscriptions` (the rxjs
subscriptions currently open). Its three event listeners are:

* `connected`: subscribe every currently registered observable and push each
  resulting subscription onto `subscriptions`;
* `disconnected`: splice all of `subscriptions` out and unsubscribe each;
* `attributeChanged`: handled separately (see `handleAttributeChanged`).

Pipelines are identified by a number. `LState.subs` lists the pipeline ids
of the currently open subscriptions, with multiplicity (subscribing the same
observable twice yields two independent subscriptions). A `notify` event is
an emission of every registered source (e.g. a property write's change
event); a pipeline's side effects run once per open subscription to it. -/

inductive LEvent : Type where
  | register (p : Nat)
  | connect
  | disconnect
  | notify (e : Nat)
  deriving DecidableEq, Repr

structure LState : Type where
  registered : List Nat
  subs : List Nat
  deriving DecidableEq, Repr

/-- One lifecycle transition, mirroring the event listeners of `create` and
the `subscribe` function it returns. -/
def stepL : LState → LEvent → LState
  | s, .register p => { s with registered := s.registered ++ [p] }
  | s, .connect => { s with subs := s.subs ++ s.registered }
  | s, .disconnect => { s with subs := [] }
  | s, .notify _ => s

def runL (s : LState) (t : List LEvent) : LState := t.foldl stepL s

/-- The emissions pipeline `p` observes along a trace: each `notify e` is
observed once per currently open subscription to `p`. -/
def observedFrom (s : LState) (p : Nat) : List LEvent → List Nat
  | [] => []
  | ev :: rest =>
    (match ev with
     | .notify e => List.replicate (s.subs.count p) e
     | _ => []) ++ observedFrom (stepL s ev) p rest

lemma runL_cons (s : LState) (ev : LEvent) (t : List LEvent) :
    runL s (ev :: t) = runL (stepL s ev) t := rfl

lemma observedFrom_append (s : LState) (p : Nat) (t1 t2 : List LEvent) :
    observedFrom s p (t1 ++ t2) =
      observedFrom s p t1 ++ observedFrom (runL s t1) p t2 := by
  induction t1 generalizing s with
  | nil => simp [observedFrom, runL]
  | cons ev t1 ih =>
    simp only [List.cons_append, observedFrom, runL_cons, List.append_assoc]
    congr 1
    exact ih (stepL s ev)

lemma stepL_notify (s : LState) (e : Nat) : stepL s (.notify e) = s := rfl

lemma runL_notifies (s : LState) (es : List Nat) :
    runL s (es.map LEvent.notify) = s := by
  induction es with
  | nil => rfl
  | cons e es ih => simpa [runL_cons, stepL_notify] using ih

lemma observed_notifies (s : LState) (p : Nat) (es : List Nat) :
    observedFrom s p (es.map LEvent.notify) =
      (es.map (List.replicate (s.subs.count p))).flatten := by
  induction es with
  | nil => rfl
  | cons e es ih => simp [observedFrom, stepL_notify, ih]

lemma observed_notifies_one (s : LState) (p : Nat) (es : List Nat)
    (h : s.subs.count p = 1) :
    observedFrom s p (es.map LEvent.notify) = es := by
  rw [observed_notifies, h]
  induction es with
  | nil => rfl
  | cons e es ih => simp_all

lemma observed_notifies_zero (s : LState) (p : Nat) (es : List Nat)
    (h : s.subs.count p = 0) :
    observedFrom s p (es.map LEvent.notify) = [] := by
  rw [observed_notifies, h]
  induction es with
  | nil => rfl
  | cons e es ih => simp_all [List.replicate]

/-- C6: lifecycle-scoped subscriptions. (i) Every connect signal subscribes
every currently registered pipeline, appending the new subscriptions to the
record; (ii) every disconnect signal clears the whole record, so no pipeline
remains subscribed after a disconnect; and consequently (iii) from any
disconnected state in which pipeline `p` is the registered pipeline — in
particular across repeated connect/disconnect cycles — `p` observes exactly
the events occurring between a connect and the following disconnect, and
none before or after. -/
theorem C6_lifecycle_scoped_subscriptions (s : LState) (p : Nat)
    (es es' : List Nat) (hsubs : s.subs = []) (hreg : s.registered = [p]) :
    (∀ s₂ : LState, (stepL s₂ .connect).subs = s₂.subs ++ s₂.registered) ∧
    (∀ s₂ : LState, (stepL s₂ .disconnect).subs = []) ∧
    observedFrom s p
      ((LEvent.connect :: es.map LEvent.notify) ++
        (LEvent.disconnect :: es'.map LEvent.notify)) = es := by
  refine ⟨fun _ => rfl, fun _ => rfl, ?_⟩
  have hstep : stepL s .connect = { s with subs := [p] } := by
    simp [stepL, hsubs, hreg]
  rw [observedFrom_append]
  have hobs1 : observedFrom s p (LEvent.connect :: es.map LEvent.notify) = es := by
    simp only [observedFrom, hstep, List.nil_append]
    exact observed_notifies_one _ _ _ (by simp)
  have hrun1 : runL s (LEvent.connect :: es.map LEvent.notify) =
      { s with subs := [p] } := by
    rw [runL_cons, hstep, runL_notifies]
  rw [hobs1, hrun1]
  have hobs2 : observedFrom { s with subs := [p] } p
      (LEvent.disconnect :: es'.map LEvent.notify) = [] := by
    simp only [observedFrom, stepL, List.nil_append]
    exact observed_notifies_zero _ _ _ (by simp)
  rw [hobs2, List.append_nil]

/-- C6 witness: a pipeline registered before connect observes exactly the
event fired between connect and disconnect. -/
theorem C6_lifecycle_scoped_subscriptions_witness :
    observedFrom ⟨[7], []⟩ 7
      ((LEvent.connect :: [3].map LEvent.notify) ++
        (LEvent.disconnect :: [4].map LEvent.notify)) = [3] :=
  (C6_lifecycle_scoped_subscriptions ⟨[7], []⟩ 7 [3] [4] rfl rfl).2.2

lemma runL_connects (p : Nat) (k : Nat) (s : LState) (hreg : s.registered = [p]) :
    runL s (List.replicate k .connect) =
      { s with subs := s.subs ++ List.replicate k p } := by
  induction k generalizing s with
  | zero => simp [runL]
  | succ k ih =>
    rw [List.replicate_succ, runL_cons, ih _ (by simp [stepL, hreg])]
    simp [stepL, hreg, List.replicate_succ]

lemma observed_connects (s : LState) (p k : Nat) :
    observedFrom s p (List.replicate k .connect) = [] := by
  induction k generalizing s with
  | zero => rfl
  | succ k ih => simp [List.replicate_succ, observedFrom, ih]

lemma count_replicate_self (p k : Nat) : (List.replicate k p).count p = k := by
  induction k with
  | zero => rfl
  | succ k ih => simp [List.replicate_succ, List.count_cons, ih]

/-- C9: connect events are not idempotent. From a disconnected state with
pipeline `p` registered, `k` consecutive connect signals with no intervening
disconnect leave `p` with `k` concurrently open subscriptions, so a
subsequent event is observed `k` times (its side effects run `k` times); a
single disconnect then drops all `k` subscriptions at once, so a later event
is not observed at all. -/
theorem C9_repeated_connect_multiplies_subscriptions (s : LState) (p k e e' : Nat)
    (hsubs : s.subs = []) (hreg : s.registered = [p]) :
    (runL s (List.replicate k .connect)).subs = List.replicate k p ∧
    observedFrom s p
      (List.replicate k .connect ++ [.notify e, .disconnect, .notify e']) =
      List.replicate k e := by
  have hrun : runL s (List.replicate k .connect) =
      { s with subs := List.replicate k p } := by
    rw [runL_connects p k s hreg, hsubs]
    simp
  refine ⟨by rw [hrun], ?_⟩
  rw [observedFrom_append, observed_connects, hrun]
  simp [observedFrom, stepL, count_replicate_self]

/-- C9 witness: two consecutive connects make the pipeline observe the next
event twice, and a single disconnect removes both subscriptions. -/
theorem C9_repeated_connect_multiplies_subscriptions_witness :
    (runL ⟨[5], []⟩ (List.replicate 2 .connect)).subs = List.replicate 2 5 ∧
    observedFrom ⟨[5], []⟩ 5
      (List.replicate 2 .connect ++ [.notify 9, .disconnect, .notify 8]) =
      List.replicate 2 9 :=
  C9_repeated_connect_multiplies_subscriptions ⟨[5], []⟩ 5 2 9 8 rfl rfl

/-! ## Template binder

`useTemplate` registers the pipeline
`merge(propertyChanged$, update$).pipe(mapProperties(properties, node),
tap(props => renderer(template(props), node.shadowRoot || node)))` with the
lifecycle controller. The model below tracks the host configured with a
schema and a single bound template:

* `cells` holds the property cells' current values (primitive values, whose
  strict equality is value equality), read through the installed accessors;
* `tmplSubs` is the number of currently open subscriptions to the template
  pipeline (one per connect since the last disconnect);
* `renders` records, in order, the snapshot passed to the template function
  for each renderer invocation.

On `connect`, subscribing the pipeline subscribes every property's
`BehaviorSubject`, each of which immediately emits its current value through
the fresh `distinctUntilChanged`, so the new subscription fires one render
per schema property (each with a snapshot of the current whole state); the
previously open subscriptions emit nothing. On a write that changes a value
(every open subscription's dedupe state equals the current cell value, so
all of them agree), each open subscription fires one render with the
post-write snapshot. `update$` is a plain `Subject` with no replay: an
`update` fires one render per open subscription, and none when there is no
subscription. -/

inductive TEvent : Type where
  | connect
  | disconnect
  | write (k : String) (v : Int)
  | update
  deriving DecidableEq, Repr

structure TplState : Type where
  cells : List (String × Int)
  tmplSubs : Nat
  renders : List (List (String × Int))
  deriving DecidableEq, Repr

def lookupCell (cells : List (String × Int)) (k : String) : Option Int :=
  (cells.find? (fun c => c.1 == k)).map (fun c => c.2)

def setCell : List (String × Int) → String → Int → List (String × Int)
  | [], _, _ => []
  | c :: cs, k, v => if c.1 == k then (k, v) :: cs else c :: setCell cs k v

/-- `mapProperties(properties, node)`: the snapshot maps every schema
property name — and only schema names, in schema order — to its current
live value on the host (the installed getter returns the cell's value). -/
def snapshot (keys : List String) (cells : List (String × Int)) :
    List (String × Int) :=
  keys.map (fun k => (k, (lookupCell cells k).getD 0))

/-- `node.shadowRoot || node`: render into the shadow content root when the
host has one, else into the host itself. Render targets are element ids. -/
def renderTarget (shadowRoot : Option Nat) (node : Nat) : Nat :=
  shadowRoot.getD node

def stepT (keys : List String) (s : TplState) : TEvent → TplState
  | .connect =>
      { s with tmplSubs := s.tmplSubs + 1,
               renders := s.renders ++
                 List.replicate keys.length (snapshot keys s.cells) }
  | .disconnect => { s with tmplSubs := 0 }
  | .update =>
      { s with renders := s.renders ++
          List.replicate s.tmplSubs (snapshot keys s.cells) }
  | .write k v =>
      match lookupCell s.cells k with
      | none => s
      | some cur =>
        if cur == v then { s with cells := setCell s.cells k v }
        else
          { s with cells := setCell s.cells k v,
                   renders := s.renders ++
                     List.replicate s.tmplSubs
                       (snapshot keys (setCell s.cells k v)) }

def runT (keys : List String) (s : TplState) (t : List TEvent) : TplState :=
  t.foldl (stepT keys) s

lemma runT_append (keys : List String) (s : TplState) (t1 t2 : List TEvent) :
    runT keys s (t1 ++ t2) = runT keys (runT keys s t1) t2 := by
  simp only [runT, List.foldl_append]

lemma snapshot_keys (keys : List String) (cells : List (String × Int)) :
    (snapshot keys cells).map Prod.fst = keys := by
  induction keys with
  | nil => rfl
  | cons k ks ih => simpa [snapshot] using ih

lemma stepT_renders_shape (keys : List String) (s : TplState) (ev : TEvent)
    (h : ∀ r ∈ s.renders, r.map Prod.fst = keys) :
    ∀ r ∈ (stepT keys s ev).renders, r.map Prod.fst = keys := by
  intro r hr
  cases ev with
  | connect =>
    simp only [stepT, List.mem_append] at hr
    rcases hr with hr | hr
    · exact h r hr
    · rw [List.eq_of_mem_replicate hr]
      exact snapshot_keys keys s.cells
  | disconnect => exact h r hr
  | update =>
    simp only [stepT, List.mem_append] at hr
    rcases hr with hr | hr
    · exact h r hr
    · rw [List.eq_of_mem_replicate hr]
      exact snapshot_keys keys s.cells
  | write k v =>
    simp only [stepT] at hr
    split at hr
    · exact h r hr
    · split at hr
      · exact h r hr
      · simp only [List.mem_append] at hr
        rcases hr with hr | hr
        · exact h r hr
        · rw [List.eq_of_mem_replicate hr]
          exact snapshot_keys keys (setCell s.cells k v)

lemma runT_renders_shape (keys : List String) (s : TplState) (t : List TEvent)
    (h : ∀ r ∈ s.renders, r.map Prod.fst = keys) :
    ∀ r ∈ (runT keys s t).renders, r.map Prod.fst = keys := by
  induction t generalizing s with
  | nil => exact h
  | cons ev t ih => exact ih (stepT keys s ev) (stepT_renders_shape keys s ev h)

/-- C7: while connected (at least one open subscription to the template
pipeline), every change event and every manual `update` trigger — merged
into the same pipeline — invokes the renderer once per open subscription,
each time passing the template function a full snapshot mapping every schema
property name, and only schema names, to its current live value on the host;
the renderer's target is the host's shadow content root if present, else the
host itself. Starting from a state whose recorded renders all have this
snapshot shape, every render produced along any trace does too. -/
theorem C7_template_snapshot_and_update (keys : List String) (s : TplState)
    (tr : List TEvent) (k : String) (v cur : Int)
    (h0 : ∀ r ∈ s.renders, r.map Prod.fst = keys) :
    (∀ r ∈ (runT keys s tr).renders, r.map Prod.fst = keys) ∧
    (lookupCell (runT keys s tr).cells k = some cur → (cur == v) = false →
      (runT keys s (tr ++ [.write k v])).renders =
        (runT keys s tr).renders ++
          List.replicate (runT keys s tr).tmplSubs
            (snapshot keys (setCell (runT keys s tr).cells k v))) ∧
    ((runT keys s (tr ++ [.update])).renders =
      (runT keys s tr).renders ++
        List.replicate (runT keys s tr).tmplSubs
          (snapshot keys (runT keys s tr).cells)) ∧
    (∀ sr node : Nat, renderTarget (some sr) node = sr ∧
      renderTarget none node = node) := by
  refine ⟨runT_renders_shape keys s tr h0, ?_, ?_, fun _ _ => ⟨rfl, rfl⟩⟩
  · intro hcur hv
    rw [runT_append]
    have h1 : runT keys (runT keys s tr) [TEvent.write k v] =
        stepT keys (runT keys s tr) (.write k v) := rfl
    rw [h1]
    simp only [stepT, hcur]
    rw [if_neg (by simp [hv])]
  · rw [runT_append]
    rfl

/-- C7 witness: with schema keys `a`, `b` seeded to 1 and 2, after a connect
a changing write to `a` renders once with the full snapshot `a=5, b=2`, an
`update` renders once with the current snapshot, and every recorded render
covers exactly the schema keys. -/
theorem C7_template_snapshot_and_update_witness :
    (∀ r ∈ (runT ["a", "b"] ⟨[("a", 1), ("b", 2)], 0, []⟩ [.connect]).renders,
      r.map Prod.fst = ["a", "b"]) ∧
    (lookupCell (runT ["a", "b"] ⟨[("a", 1), ("b", 2)], 0, []⟩
        [.connect]).cells "a" = some 1 → ((1 : Int) == 5) = false →
      (runT ["a", "b"] ⟨[("a", 1), ("b", 2)], 0, []⟩
          ([.connect] ++ [.write "a" 5])).renders =
        (runT ["a", "b"] ⟨[("a", 1), ("b", 2)], 0, []⟩ [.connect]).renders ++
          List.replicate
            (runT ["a", "b"] ⟨[("a", 1), ("b", 2)], 0, []⟩ [.connect]).tmplSubs
            (snapshot ["a", "b"]
              (setCell (runT ["a", "b"] ⟨[("a", 1), ("b", 2)], 0, []⟩
                [.connect]).cells "a" 5))) ∧
    ((runT ["a", "b"] ⟨[("a", 1), ("b", 2)], 0, []⟩
        ([.connect] ++ [.update])).renders =
      (runT ["a", "b"] ⟨[("a", 1), ("b", 2)], 0, []⟩ [.connect]).renders ++
        List.replicate
          (runT ["a", "b"] ⟨[("a", 1), ("b", 2)], 0, []⟩ [.connect]).tmplSubs
          (snapshot ["a", "b"]
            (runT ["a", "b"] ⟨[("a", 1), ("b", 2)], 0, []⟩ [.connect]).cells)) ∧
    (∀ sr node : Nat, renderTarget (some sr) node = sr ∧
      renderTarget none node = node) :=
  C7_template_snapshot_and_update ["a", "b"] ⟨[("a", 1), ("b", 2)], 0, []⟩
    [.connect] "a" 5 1 (by simp)

/-- C10: the manual update trigger fires through a plain subject that is only
observed via the lifecycle-scoped template pipeline. While no subscription is
open — before the first connect, or after a disconnect (which always leaves
zero open subscriptions) — an `update` leaves the state unchanged: it
invokes neither the template function nor the renderer, and it is dropped,
not queued, so the rest of the trace proceeds exactly as if the update had
never been fired. -/
theorem C10_update_while_disconnected_dropped (keys : List String)
    (s : TplState) (pre post : List TEvent)
    (h : (runT keys s pre).tmplSubs = 0) :
    runT keys s ((pre ++ [.update]) ++ post) = runT keys s (pre ++ post) ∧
    stepT keys (runT keys s pre) .update = runT keys s pre ∧
    (∀ s₂ : TplState, (stepT keys s₂ .disconnect).tmplSubs = 0) := by
  have hid : stepT keys (runT keys s pre) .update = runT keys s pre := by
    simp only [stepT, h, List.replicate_zero, List.append_nil]
    rw [← h]
  refine ⟨?_, hid, fun _ => rfl⟩
  rw [runT_append, runT_append, runT_append]
  have h1 : runT keys (runT keys s pre) [TEvent.update] = runT keys s pre := hid
  rw [h1]

/-- C10 witness: an update fired between a disconnect and a reconnect leaves
no trace — the run with it equals the run without it. -/
theorem C10_update_while_disconnected_dropped_witness :
    runT ["a"] ⟨[("a", 1)], 0, []⟩
        (([.connect, .disconnect] ++ [.update]) ++ [.connect, .write "a" 3]) =
      runT ["a"] ⟨[("a", 1)], 0, []⟩
        ([.connect, .disconnect] ++ [.connect, .write "a" 3]) ∧
    stepT ["a"] (runT ["a"] ⟨[("a", 1)], 0, []⟩ [.connect, .disconnect]) .update =
      runT ["a"] ⟨[("a", 1)], 0, []⟩ [.connect, .disconnect] ∧
    (∀ s₂ : TplState, (stepT ["a"] s₂ .disconnect).tmplSubs = 0) :=
  C10_update_while_disconnected_dropped ["a"] ⟨[("a", 1)], 0, []⟩
    [.connect, .disconnect] [.connect, .write "a" 3] rfl

/-! ## JavaScript values and converters

`JVal` models the JavaScript values the attribute codec deals in. Numbers
are restricted to integers (floating point is outside the model); `vNaN` is
the not-a-number result of a failed numeric coercion. A date is its epoch
timestamp (`none` for an invalid date); a URL is its href. -/

inductive JVal : Type where
  | vNull
  | vUndef
  | vNaN
  | vBool (b : Bool)
  | vNum (n : Int)
  | vBigInt (n : Int)
  | vStr (s : String)
  | vArr (xs : List JVal)
  | vObj (fields : List (String × JVal))
  | vDate (t : Option Int)
  | vURL (href : String)

/-- The converters the `parseAttribute` switch distinguishes. `cObject`
stands for the `Object`/`Array` constructor of a non-primitive default
value: it reaches the switch's default branch, where `converter.parse` is
not a function, so conversion throws. -/
inductive Conv : Type where
  | cJSON
  | cBool
  | cURL
  | cDate
  | cStr
  | cNum
  | cBigInt
  | cObject
  deriving DecidableEq, Repr

/-- JavaScript truthiness of a value. -/
def truthy : JVal → Bool
  | .vNull => false
  | .vUndef => false
  | .vNaN => false
  | .vBool b => b
  | .vNum n => n != 0
  | .vBigInt n => n != 0
  | .vStr s => s != ""
  | .vArr _ => true
  | .vObj _ => true
  | .vDate _ => true
  | .vURL _ => true

/-- `value.constructor` as a converter: the runtime type of a value. The
`vNull`/`vUndef` arms have no runtime constructor in JavaScript (accessing
`.constructor` would throw); they are unreachable wherever this function is
used, because the source guards the access behind truthiness. -/
def ctorOf : JVal → Conv
  | .vNull => .cObject
  | .vUndef => .cObject
  | .vNaN => .cNum
  | .vBool _ => .cBool
  | .vNum _ => .cNum
  | .vBigInt _ => .cBigInt
  | .vStr _ => .cStr
  | .vArr _ => .cObject
  | .vObj _ => .cObject
  | .vDate _ => .cDate
  | .vURL _ => .cURL

/-- One schema entry (`PropertyConfig<T>`): the declared default, the
optional explicit attribute name, and the optional explicit converter. The
`effects` pipeline is not needed by the attribute codec and is modelled with
the change stream instead. -/
structure PropertyConfig : Type where
  initial : JVal
  attributeName : Option String := none
  converter : Option Conv := none

/-- `config.converter || config.initial && config.initial.constructor ||
JSON`: the explicit converter if present; otherwise the default value's
constructor — but only when the default is truthy, since `&&` returns the
falsy left operand for falsy defaults (`0`, `''`, `false`, `null`,
`undefined`), in which case the chain falls through to `JSON`. -/
def resolveConverter (config : PropertyConfig) : Conv :=
  match config.converter with
  | some c => c
  | none => if truthy config.initial then ctorOf config.initial else .cJSON

/-- The converter resolution as the specification words it, for comparison
with `resolveConverter`: the explicit converter on the definition; else the
runtime type (constructor) of the declared default value; else the generic
structured (JSON-like) parse — where only `null`/`undefined` defaults lack
a runtime type. -/
def specResolveConverter (config : PropertyConfig) : Conv :=
  match config.converter with
  | some c => c
  | none =>
    match config.initial with
    | .vNull => .cJSON
    | .vUndef => .cJSON
    | v => ctorOf v

/-- C4 (counterexample): the claim as stated is false. A definition with no
explicit converter and default value `0` has a runtime type (`Number`), so
the claim mandates the `Number` converter; but the source resolves the
converter with `config.converter || config.initial &&
config.initial.constructor || JSON`, and `0` is falsy, so the constructor is
skipped and the JSON fallback is used. -/
theorem C4_falsy_default_resolves_json :
    resolveConverter { initial := .vNum 0 } = .cJSON ∧
    specResolveConverter { initial := .vNum 0 } = .cNum ∧
    Conv.cJSON ≠ Conv.cNum :=
  ⟨rfl, rfl, by decide⟩

/-- C4 (amended): converter resolution order is: the explicit converter on
the definition if present; else, when the declared default value is truthy,
the runtime type (constructor) of the default; else the generic structured
(JSON-like) parse. In particular a definition with no explicit converter
whose default is truthy uses the default's runtime type, agreeing with the
specification's resolution; falsy defaults (`0`, `''`, `false`, `null`,
`undefined`, `NaN`) fall back to JSON instead. -/
theorem C4_converter_resolution (config : PropertyConfig)
    (h : truthy config.initial = true ∨ config.converter.isSome = true) :
    resolveConverter config = specResolveConverter config := by
  match hc : config.converter with
  | some c => simp [resolveConverter, specResolveConverter, hc]
  | none =>
    rcases h with h | h
    · simp only [resolveConverter, specResolveConverter, hc, h, if_true]
      match hi : config.initial with
      | .vNull => rw [hi] at h; exact absurd h (by decide)
      | .vUndef => rw [hi] at h; exact absurd h (by decide)
      | .vNaN => rfl
      | .vBool b => rfl
      | .vNum n => rfl
      | .vBigInt n => rfl
      | .vStr s => rfl
      | .vArr xs => rfl
      | .vObj fs => rfl
      | .vDate t => rfl
      | .vURL u => rfl
    · rw [hc] at h; exact absurd h (by decide)

/-- C4 witness: a truthy default (`5`) with no explicit converter resolves,
as the specification says, to the default's runtime type. -/
theorem C4_converter_resolution_witness :
    resolveConverter { initial := .vNum 5 } =
      specResolveConverter { initial := .vNum 5 } :=
  C4_converter_resolution { initial := .vNum 5 } (Or.inl rfl)

/-! ## Decimal numerals

`String(n)` / `Number(s)` for integers, and the digit machinery shared with
the JSON parser. -/

def isDigitCh (c : Char) : Bool :=
  decide (48 ≤ c.toNat) && decide (c.toNat ≤ 57)

def digitVal (c : Char) : Nat := c.toNat - 48

def natToChars (n : Nat) : List Char :=
  if h : n < 10 then [Char.ofNat (48 + n)]
  else natToChars (n / 10) ++ [Char.ofNat (48 + n % 10)]
  termination_by n
  decreasing_by exact Nat.div_lt_self (by omega) (by omega)

def digitsToNat (ds : List Char) : Nat :=
  ds.foldl (fun a c => 10 * a + digitVal c) 0

/-- `String(n)` for an integer `n`. -/
def intToChars (n : Int) : List Char :=
  if n < 0 then '-' :: natToChars n.natAbs else natToChars n.natAbs

lemma digitVal_ofNat (d : Nat) (h : d < 10) :
    digitVal (Char.ofNat (48 + d)) = d := by
  interval_cases d <;> decide

lemma isDigitCh_ofNat (d : Nat) (h : d < 10) :
    isDigitCh (Char.ofNat (48 + d)) = true := by
  interval_cases d <;> decide

lemma digitsToNat_snoc (ds : List Char) (d : Char) :
    digitsToNat (ds ++ [d]) = 10 * digitsToNat ds + digitVal d := by
  simp [digitsToNat, List.foldl_append]

lemma digitsToNat_natToChars (n : Nat) : digitsToNat (natToChars n) = n := by
  induction n using Nat.strong_induction_on with
  | _ n ih =>
    by_cases h : n < 10
    · rw [natToChars, dif_pos h]
      show digitsToNat [Char.ofNat (48 + n)] = n
      simp [digitsToNat, digitVal_ofNat n h]
    · rw [natToChars, dif_neg h, digitsToNat_snoc,
        ih (n / 10) (Nat.div_lt_self (by omega) (by omega)),
        digitVal_ofNat (n % 10) (Nat.mod_lt n (by omega))]
      omega

lemma natToChars_digits (n : Nat) : ∀ c ∈ natToChars n, isDigitCh c = true := by
  induction n using Nat.strong_induction_on with
  | _ n ih =>
    by_cases h : n < 10
    · rw [natToChars, dif_pos h]
      intro c hc
      rw [List.mem_singleton] at hc
      subst hc
      exact isDigitCh_ofNat n h
    · rw [natToChars, dif_neg h]
      intro c hc
      rw [List.mem_append] at hc
      rcases hc with hc | hc
      · exact ih (n / 10) (Nat.div_lt_self (by omega) (by omega)) c hc
      · rw [List.mem_singleton] at hc
        subst hc
        exact isDigitCh_ofNat (n % 10) (Nat.mod_lt n (by omega))

lemma natToChars_ne_nil (n : Nat) : natToChars n ≠ [] := by
  by_cases h : n < 10
  · rw [natToChars, dif_pos h]
    exact List.cons_ne_nil _ _
  · rw [natToChars, dif_neg h]
    intro hx
    rcases List.append_eq_nil.1 hx with ⟨-, h2⟩
    exact List.cons_ne_nil _ _ h2

/-- `Number(s)` restricted to integer numerals: an optional minus sign
followed by a nonempty digit run matching the whole input. Other numeric
syntaxes JavaScript accepts (decimals, exponents, hex) are outside the
model. -/
def decDigits (cs : List Char) : Option Nat :=
  if cs ≠ [] ∧ cs.all isDigitCh then some (digitsToNat cs) else none

def jsParseIntChars : List Char → Option Int
  | [] => none
  | c :: cs =>
    if c = '-' then (decDigits cs).map (fun n => -(Int.ofNat n))
    else (decDigits (c :: cs)).map Int.ofNat

/-- `Number(s)` as a value: `NaN` when the text is not an integer numeral,
`0` for the empty string. -/
def jsNumber (s : String) : JVal :=
  if s.data = [] then .vNum 0
  else
    match jsParseIntChars s.data with
    | some n => .vNum n
    | none => .vNaN

lemma decDigits_natToChars (n : Nat) : decDigits (natToChars n) = some n := by
  rw [decDigits, if_pos, digitsToNat_natToChars]
  exact ⟨natToChars_ne_nil n, List.all_eq_true.2 (natToChars_digits n)⟩

lemma natToChars_head_digit (n : Nat) :
    ∃ c cs, natToChars n = c :: cs ∧ isDigitCh c = true := by
  cases h : natToChars n with
  | nil => exact absurd h (natToChars_ne_nil n)
  | cons c cs =>
    refine ⟨c, cs, rfl, natToChars_digits n c ?_⟩
    rw [h]; exact List.mem_cons_self c cs

lemma digit_not_minus {c : Char} (h : isDigitCh c = true) : ¬(c = '-') := by
  intro he
  subst he
  exact absurd h (by decide)

lemma jsParseIntChars_intToChars (n : Int) :
    jsParseIntChars (intToChars n) = some n := by
  by_cases h : n < 0
  · rw [intToChars, if_pos h]
    show jsParseIntChars ('-' :: natToChars n.natAbs) = some n
    rw [jsParseIntChars, if_pos rfl, decDigits_natToChars]
    rw [Option.map_some']
    rw [Int.ofNat_eq_natCast]
    congr 1
    omega
  · rw [intToChars, if_neg h]
    obtain ⟨c, cs, hc, hd⟩ := natToChars_head_digit n.natAbs
    rw [hc, jsParseIntChars, if_neg (digit_not_minus hd), ← hc,
      decDigits_natToChars]
    rw [Option.map_some']
    rw [Int.ofNat_eq_natCast]
    congr 1
    omega

/-! ## JSON text: escaping and the string-literal scanner -/

def isWsCh (c : Char) : Bool :=
  decide (c.toNat = 32) || decide (c.toNat = 9) ||
    decide (c.toNat = 10) || decide (c.toNat = 13)

def skipWs : List Char → List Char
  | [] => []
  | c :: cs => if isWsCh c then skipWs cs else c :: cs

def hexDigitCh (n : Nat) : Char :=
  Char.ofNat (if n < 10 then 48 + n else 87 + n)

def hexVal (c : Char) : Option Nat :=
  if 48 ≤ c.toNat ∧ c.toNat ≤ 57 then some (c.toNat - 48)
  else if 97 ≤ c.toNat ∧ c.toNat ≤ 102 then some (c.toNat - 87)
  else if 65 ≤ c.toNat ∧ c.toNat ≤ 70 then some (c.toNat - 55)
  else none

/-- `JSON.stringify` escaping of one string character: quote, backslash and
the common control characters get two-character escapes, remaining control
characters a `\u00XX` escape, anything else stands for itself. -/
def escChar (c : Char) : List Char :=
  if c = '"' then ['\\', '"']
  else if c = '\\' then ['\\', '\\']
  else if c = '\n' then ['\\', 'n']
  else if c = '\t' then ['\\', 't']
  else if c = '\r' then ['\\', 'r']
  else if c.toNat < 32 then
    ['\\', 'u', '0', '0', hexDigitCh (c.toNat / 16), hexDigitCh (c.toNat % 16)]
  else [c]

def escChars (cs : List Char) : List Char := (cs.map escChar).flatten

/-- The value of a two-character escape in a JSON string literal. -/
def escCode (e : Char) : Option Char :=
  if e = '"' then some '"'
  else if e = '\\' then some '\\'
  else if e = '/' then some '/'
  else if e = 'n' then some '\n'
  else if e = 't' then some '\t'
  else if e = 'r' then some '\r'
  else if e = 'b' then some (Char.ofNat 8)
  else if e = 'f' then some (Char.ofNat 12)
  else none

/-! Scanning the body of a JSON string literal (the opening quote already
consumed): `pStr` returns the decoded characters and the input after the
closing quote. Unescaped control characters, bad escapes and a missing
closing quote are errors, as in `JSON.parse`. `pEsc` scans what follows a
backslash. -/

mutual

def pStr : List Char → Option (List Char × List Char)
  | [] => none
  | c :: rest =>
    if c = '"' then some ([], rest)
    else if c = '\\' then pEsc rest
    else if c.toNat < 32 then none
    else (pStr rest).map (fun r => (c :: r.1, r.2))

def pEsc : List Char → Option (List Char × List Char)
  | [] => none
  | e :: rest =>
    if e = 'u' then
      match rest with
      | h1 :: h2 :: h3 :: h4 :: rest2 =>
        match hexVal h1, hexVal h2, hexVal h3, hexVal h4 with
        | some a, some b, some x, some d =>
          (pStr rest2).map
            (fun r => (Char.ofNat (4096 * a + 256 * b + 16 * x + d) :: r.1, r.2))
        | _, _, _, _ => none
      | _ => none
    else
      match escCode e with
      | some ce => (pStr rest).map (fun r => (ce :: r.1, r.2))
      | none => none

end

lemma hexVal_hexDigitCh (m : Nat) (h : m < 16) :
    hexVal (hexDigitCh m) = some m := by
  interval_cases m <;> decide

lemma pStr_quote (cs : List Char) : pStr ('"' :: cs) = some ([], cs) := by
  simp [pStr]

lemma pStr_bs (cs : List Char) : pStr ('\\' :: cs) = pEsc cs := by
  simp [pStr]

lemma pStr_plain {c : Char} (h1 : ¬ c = '"') (h2 : ¬ c = '\\')
    (h3 : ¬ c.toNat < 32) (cs : List Char) :
    pStr (c :: cs) = (pStr cs).map (fun r => (c :: r.1, r.2)) := by
  simp [pStr, h1, h2, h3]

lemma pEsc_code {e ce : Char} (hu : ¬ e = 'u') (h : escCode e = some ce)
    (cs : List Char) :
    pEsc (e :: cs) = (pStr cs).map (fun r => (ce :: r.1, r.2)) := by
  rw [pEsc.eq_def]
  simp [hu, h]

lemma pEsc_u {h1 h2 h3 h4 : Char} {a b x d : Nat}
    (e1 : hexVal h1 = some a) (e2 : hexVal h2 = some b)
    (e3 : hexVal h3 = some x) (e4 : hexVal h4 = some d) (cs : List Char) :
    pEsc ('u' :: h1 :: h2 :: h3 :: h4 :: cs) =
      (pStr cs).map
        (fun r => (Char.ofNat (4096 * a + 256 * b + 16 * x + d) :: r.1, r.2)) := by
  rw [pEsc.eq_def]
  simp [e1, e2, e3, e4]

lemma pStr_escChars (cs rest : List Char) :
    pStr (escChars cs ++ '"' :: rest) = some (cs, rest) := by
  induction cs with
  | nil =>
    rw [show escChars [] = [] from rfl, List.nil_append, pStr_quote]
  | cons c cs ih =>
    rw [show escChars (c :: cs) = escChar c ++ escChars cs by simp [escChars],
      List.append_assoc]
    by_cases hq : c = '"'
    · subst hq
      rw [show escChar '"' = ['\\', '"'] from rfl]
      simp only [List.cons_append, List.nil_append]
      rw [pStr_bs, pEsc_code (by decide) (show escCode '"' = some '"' from rfl),
        ih, Option.map_some']
    · by_cases hb : c = '\\'
      · subst hb
        rw [show escChar '\\' = ['\\', '\\'] from rfl]
        simp only [List.cons_append, List.nil_append]
        rw [pStr_bs, pEsc_code (by decide) (show escCode '\\' = some '\\' from rfl),
          ih, Option.map_some']
      · by_cases hn : c = '\n'
        · subst hn
          rw [show escChar '\n' = ['\\', 'n'] from rfl]
          simp only [List.cons_append, List.nil_append]
          rw [pStr_bs, pEsc_code (by decide) (show escCode 'n' = some '\n' from rfl),
            ih, Option.map_some']
        · by_cases ht : c = '\t'
          · subst ht
            rw [show escChar '\t' = ['\\', 't'] from rfl]
            simp only [List.cons_append, List.nil_append]
            rw [pStr_bs, pEsc_code (by decide) (show escCode 't' = some '\t' from rfl),
              ih, Option.map_some']
          · by_cases hr : c = '\r'
            · subst hr
              rw [show escChar '\r' = ['\\', 'r'] from rfl]
              simp only [List.cons_append, List.nil_append]
              rw [pStr_bs, pEsc_code (by decide)
                (show escCode 'r' = some '\r' from rfl), ih, Option.map_some']
            · by_cases hc : c.toNat < 32
              · rw [escChar, if_neg hq, if_neg hb, if_neg hn, if_neg ht,
                  if_neg hr, if_pos hc]
                simp only [List.cons_append, List.nil_append]
                rw [pStr_bs,
                  pEsc_u (show hexVal '0' = some 0 from rfl)
                    (show hexVal '0' = some 0 from rfl)
                    (hexVal_hexDigitCh _ (by omega))
                    (hexVal_hexDigitCh _ (by omega)),
                  ih, Option.map_some']
                have he : 4096 * 0 + 256 * 0 + 16 * (c.toNat / 16) +
                    c.toNat % 16 = c.toNat := by omega
                rw [he, Char.ofNat_toNat]
              · rw [escChar, if_neg hq, if_neg hb, if_neg hn, if_neg ht,
                  if_neg hr, if_neg hc]
                simp only [List.cons_append, List.nil_append]
                rw [pStr_plain hq hb hc, ih, Option.map_some']

/-! ## The JSON parser and stringifier

A recursive-descent model of `JSON.parse` over the grammar the model
supports (JSON with integer numerals), and the matching `JSON.stringify`.
The parser threads explicit fuel decremented at each recursive step; the
top-level entry point supplies more fuel than any input can consume
(established by `fuelVal_le_length`). -/

def headIs (cs : List Char) (d : Char) : Bool :=
  match cs with
  | [] => false
  | c :: _ => c = d

def expectChars : List Char → List Char → Option (List Char)
  | [], cs => some cs
  | _ :: _, [] => none
  | p :: ps, c :: cs => if p = c then expectChars ps cs else none

def spanDigits : List Char → List Char × List Char
  | [] => ([], [])
  | c :: rest =>
    if isDigitCh c then
      let r := spanDigits rest
      (c :: r.1, r.2)
    else ([], c :: rest)

def pNat (cs : List Char) : Option (Nat × List Char) :=
  let r := spanDigits cs
  if r.1 = [] then none else some (digitsToNat r.1, r.2)

mutual

def pVal : Nat → List Char → Option (JVal × List Char)
  | 0, _ => none
  | fuel + 1, cs =>
    match skipWs cs with
    | [] => none
    | c :: rest =>
      if c = 'n' then
        (expectChars ['u', 'l', 'l'] rest).map (fun r => (.vNull, r))
      else if c = 't' then
        (expectChars ['r', 'u', 'e'] rest).map (fun r => (.vBool true, r))
      else if c = 'f' then
        (expectChars ['a', 'l', 's', 'e'] rest).map (fun r => (.vBool false, r))
      else if c = '"' then
        (pStr rest).map (fun r => (.vStr (String.mk r.1), r.2))
      else if c = '[' then
        if headIs (skipWs rest) ']' then some (.vArr [], (skipWs rest).tail)
        else (pElems fuel (skipWs rest)).map (fun r => (.vArr r.1, r.2))
      else if c = '{' then
        if headIs (skipWs rest) '}' then some (.vObj [], (skipWs rest).tail)
        else (pMembers fuel (skipWs rest)).map (fun r => (.vObj r.1, r.2))
      else if c = '-' then
        (pNat rest).map (fun r => (.vNum (-(Int.ofNat r.1)), r.2))
      else if isDigitCh c then
        (pNat (c :: rest)).map (fun r => (.vNum (Int.ofNat r.1), r.2))
      else none

def pElems : Nat → List Char → Option (List JVal × List Char)
  | 0, _ => none
  | fuel + 1, cs =>
    match pVal fuel cs with
    | none => none
    | some (v, rest) =>
      let r2 := skipWs rest
      if headIs r2 ',' then (pElems fuel r2.tail).map (fun r => (v :: r.1, r.2))
      else if headIs r2 ']' then some ([v], r2.tail)
      else none

def pMembers : Nat → List Char → Option (List (String × JVal) × List Char)
  | 0, _ => none
  | fuel + 1, cs =>
    match skipWs cs with
    | [] => none
    | c :: rest =>
      if c = '"' then
        match pStr rest with
        | none => none
        | some (key, rest2) =>
          let r3 := skipWs rest2
          if headIs r3 ':' then
            match pVal fuel r3.tail with
            | none => none
            | some (v, rest4) =>
              let r5 := skipWs rest4
              if headIs r5 ',' then
                (pMembers fuel r5.tail).map
                  (fun r => ((String.mk key, v) :: r.1, r.2))
              else if headIs r5 '}' then some ([(String.mk key, v)], r5.tail)
              else none
          else none
      else none

end

/-- `JSON.parse`: parse one value and require only whitespace to remain. -/
def jsonParse (s : String) : Option JVal :=
  match pVal (s.data.length + 1) s.data with
  | some (v, rest) => if skipWs rest = [] then some v else none
  | none => none

def strKey (k : String) : List Char := '"' :: escChars k.data ++ ['"']

mutual

def strVal : JVal → List Char
  | .vNull => ['n', 'u', 'l', 'l']
  | .vBool true => ['t', 'r', 'u', 'e']
  | .vBool false => ['f', 'a', 'l', 's', 'e']
  | .vNum n => intToChars n
  | .vStr s => '"' :: escChars s.data ++ ['"']
  | .vArr [] => ['[', ']']
  | .vArr (x :: xs) => '[' :: (strVal x ++ strElems xs ++ [']'])
  | .vObj [] => ['{', '}']
  | .vObj ((k, v) :: fs) =>
    '{' :: (strKey k ++ ':' :: strVal v ++ strMembers fs ++ ['}'])
  | .vUndef => []
  | .vNaN => []
  | .vBigInt _ => []
  | .vDate _ => []
  | .vURL _ => []

def strElems : List JVal → List Char
  | [] => []
  | x :: xs => ',' :: strVal x ++ strElems xs

def strMembers : List (String × JVal) → List Char
  | [] => []
  | (k, v) :: fs => ',' :: strKey k ++ ':' :: strVal v ++ strMembers fs

end

/-! The values `JSON.stringify` can produce text for (and `JSON.parse`
return): null, booleans, numbers, strings, arrays and objects of such. -/

mutual

def isJSON : JVal → Bool
  | .vNull => true
  | .vBool _ => true
  | .vNum _ => true
  | .vStr _ => true
  | .vArr xs => isJSONList xs
  | .vObj fs => isJSONFields fs
  | _ => false

def isJSONList : List JVal → Bool
  | [] => true
  | x :: xs => isJSON x && isJSONList xs

def isJSONFields : List (String × JVal) → Bool
  | [] => true
  | (_, v) :: fs => isJSON v && isJSONFields fs

end

/-! Fuel sufficient for the parser to consume the printed form of a value:
one unit per `pVal`/`pElems`/`pMembers` activation. -/

mutual

def fuelVal : JVal → Nat
  | .vArr xs => 1 + fuelElems xs
  | .vObj fs => 1 + fuelMembers fs
  | _ => 1

def fuelElems : List JVal → Nat
  | [] => 0
  | x :: xs => 1 + fuelVal x + fuelElems xs

def fuelMembers : List (String × JVal) → Nat
  | [] => 0
  | (_, v) :: fs => 1 + fuelVal v + fuelMembers fs

end

/-! ## Print-then-parse round trip -/

/-- After a printed numeral, the remaining input must not begin with another
digit (the numeral scanner is maximal). Every continuation the printer
produces — a comma, a closing bracket or brace, or the end of input —
satisfies this. -/
def stopOk : List Char → Bool
  | [] => true
  | c :: _ => !isDigitCh c

lemma expectChars_append (p rest : List Char) :
    expectChars p (p ++ rest) = some rest := by
  induction p with
  | nil => rfl
  | cons c p ih => simpa [expectChars] using ih

lemma skipWs_cons {c : Char} (h : isWsCh c = false) (cs : List Char) :
    skipWs (c :: cs) = c :: cs := by
  simp [skipWs, h]

lemma digit_bounds {c : Char} (h : isDigitCh c = true) :
    48 ≤ c.toNat ∧ c.toNat ≤ 57 := by
  simpa [isDigitCh] using h

lemma ws_false_of_digit {c : Char} (h : isDigitCh c = true) :
    isWsCh c = false := by
  have hb := digit_bounds h
  simp only [isWsCh, Bool.or_eq_false_iff, decide_eq_false_iff_not]
  omega

lemma digit_ne {c d : Char} (h : isDigitCh c = true)
    (hd : isDigitCh d = false) : ¬(c = d) := by
  intro he
  subst he
  rw [h] at hd
  cases hd

lemma spanDigits_append {ds : List Char} (rest : List Char)
    (hds : ∀ c ∈ ds, isDigitCh c = true) (hrest : stopOk rest = true) :
    spanDigits (ds ++ rest) = (ds, rest) := by
  induction ds with
  | nil =>
    cases rest with
    | nil => rfl
    | cons c cs =>
      simp only [stopOk, Bool.not_eq_true'] at hrest
      simp [spanDigits, hrest]
  | cons d ds ih =>
    have hd : isDigitCh d = true := hds d (List.mem_cons_self d ds)
    simp [spanDigits, hd, ih (fun c hc => hds c (List.mem_cons_of_mem d hc))]

lemma pNat_digits (m : Nat) (rest : List Char) (hrest : stopOk rest = true) :
    pNat (natToChars m ++ rest) = some (m, rest) := by
  simp [pNat, spanDigits_append rest (natToChars_digits m) hrest,
    natToChars_ne_nil m, digitsToNat_natToChars]

lemma pVal_null (fuel : Nat) (cs : List Char) :
    pVal (fuel + 1) ('n' :: 'u' :: 'l' :: 'l' :: cs) = some (.vNull, cs) := rfl

lemma pVal_true (fuel : Nat) (cs : List Char) :
    pVal (fuel + 1) ('t' :: 'r' :: 'u' :: 'e' :: cs) =
      some (.vBool true, cs) := rfl

lemma pVal_false (fuel : Nat) (cs : List Char) :
    pVal (fuel + 1) ('f' :: 'a' :: 'l' :: 's' :: 'e' :: cs) =
      some (.vBool false, cs) := rfl

lemma pVal_quote (fuel : Nat) (cs : List Char) :
    pVal (fuel + 1) ('"' :: cs) =
      (pStr cs).map (fun r => (JVal.vStr (String.mk r.1), r.2)) := rfl

lemma pVal_arr (fuel : Nat) (cs : List Char) :
    pVal (fuel + 1) ('[' :: cs) =
      if headIs (skipWs cs) ']' then some (.vArr [], (skipWs cs).tail)
      else (pElems fuel (skipWs cs)).map (fun r => (.vArr r.1, r.2)) := rfl

lemma pVal_obj (fuel : Nat) (cs : List Char) :
    pVal (fuel + 1) ('{' :: cs) =
      if headIs (skipWs cs) '}' then some (.vObj [], (skipWs cs).tail)
      else (pMembers fuel (skipWs cs)).map (fun r => (.vObj r.1, r.2)) := rfl

lemma pVal_neg (fuel : Nat) (cs : List Char) :
    pVal (fuel + 1) ('-' :: cs) =
      (pNat cs).map (fun r => (JVal.vNum (-(Int.ofNat r.1)), r.2)) := rfl

lemma pVal_digit {c : Char} (h : isDigitCh c = true) (fuel : Nat)
    (cs : List Char) :
    pVal (fuel + 1) (c :: cs) =
      (pNat (c :: cs)).map (fun r => (JVal.vNum (Int.ofNat r.1), r.2)) := by
  rw [pVal.eq_def]
  simp only [skipWs_cons (ws_false_of_digit h)]
  rw [if_neg (digit_ne h (by decide)), if_neg (digit_ne h (by decide)),
    if_neg (digit_ne h (by decide)), if_neg (digit_ne h (by decide)),
    if_neg (digit_ne h (by decide)), if_neg (digit_ne h (by decide)),
    if_neg (digit_ne h (by decide)), if_pos h]

lemma pElems_succ (fuel : Nat) (cs : List Char) :
    pElems (fuel + 1) cs =
      match pVal fuel cs with
      | none => none
      | some (v, rest) =>
        let r2 := skipWs rest
        if headIs r2 ',' then (pElems fuel r2.tail).map (fun r => (v :: r.1, r.2))
        else if headIs r2 ']' then some ([v], r2.tail)
        else none := rfl

lemma pMembers_quote (fuel : Nat) (cs : List Char) :
    pMembers (fuel + 1) ('"' :: cs) =
      match pStr cs with
      | none => none
      | some (key, rest2) =>
        let r3 := skipWs rest2
        if headIs r3 ':' then
          match pVal fuel r3.tail with
          | none => none
          | some (v, rest4) =>
            let r5 := skipWs rest4
            if headIs r5 ',' then
              (pMembers fuel r5.tail).map
                (fun r => ((String.mk key, v) :: r.1, r.2))
            else if headIs r5 '}' then some ([(String.mk key, v)], r5.tail)
            else none
        else none := rfl

/-- The first character of a printed JSON value: never whitespace, never a
closing bracket or brace. -/
lemma strVal_head (v : JVal) (h : isJSON v = true) :
    ∃ c cs, strVal v = c :: cs ∧ isWsCh c = false ∧ ¬(c = ']') ∧ ¬(c = '}') := by
  cases v with
  | vNull =>
    refine ⟨'n', _, rfl, ?_, ?_, ?_⟩ <;> decide
  | vBool b =>
    cases b with
    | true =>
      refine ⟨'t', _, rfl, ?_, ?_, ?_⟩ <;> decide
    | false =>
      refine ⟨'f', _, rfl, ?_, ?_, ?_⟩ <;> decide
  | vNum n =>
    by_cases hn : n < 0
    · refine ⟨'-', natToChars n.natAbs, ?_, by decide, by decide, by decide⟩
      rw [show strVal (JVal.vNum n) = intToChars n from rfl, intToChars,
        if_pos hn]
    · obtain ⟨c, cs, hc, hd⟩ := natToChars_head_digit n.natAbs
      refine ⟨c, cs, ?_, ws_false_of_digit hd, digit_ne hd (by decide),
        digit_ne hd (by decide)⟩
      rw [show strVal (JVal.vNum n) = intToChars n from rfl, intToChars,
        if_neg hn, hc]
  | vStr s =>
    refine ⟨'"', _, rfl, ?_, ?_, ?_⟩ <;> decide
  | vArr xs =>
    cases xs with
    | nil =>
      refine ⟨'[', _, rfl, ?_, ?_, ?_⟩ <;> decide
    | cons x xs =>
      refine ⟨'[', _, rfl, ?_, ?_, ?_⟩ <;> decide
  | vObj fs =>
    cases fs with
    | nil =>
      refine ⟨'{', _, rfl, ?_, ?_, ?_⟩ <;> decide
    | cons f fs =>
      obtain ⟨k, v⟩ := f
      refine ⟨'{', _, rfl, ?_, ?_, ?_⟩ <;> decide
  | vUndef => exact absurd h (by decide)
  | vNaN => exact absurd h (by decide)
  | vBigInt n => exact absurd h (by simp [isJSON])
  | vDate t => exact absurd h (by simp [isJSON])
  | vURL u => exact absurd h (by simp [isJSON])

lemma fuelVal_pos (v : JVal) : 1 ≤ fuelVal v := by
  cases v <;> simp [fuelVal]

/-- Parsing the printed form of a JSON value, given enough fuel, returns the
value and the untouched continuation; likewise for the element list of a
nonempty printed array and the member list of a nonempty printed object. -/
lemma parse_print_aux (fuel : Nat) :
    (∀ v rest, isJSON v = true → fuelVal v ≤ fuel → stopOk rest = true →
      pVal fuel (strVal v ++ rest) = some (v, rest)) ∧
    (∀ x xs rest, isJSON x = true → isJSONList xs = true →
      fuelElems (x :: xs) ≤ fuel →
      pElems fuel (strVal x ++ (strElems xs ++ ']' :: rest)) =
        some (x :: xs, rest)) ∧
    (∀ k v fs rest, isJSON v = true → isJSONFields fs = true →
      fuelMembers ((k, v) :: fs) ≤ fuel →
      pMembers fuel
        ('"' :: (escChars k.data ++ '"' :: ':' ::
          (strVal v ++ (strMembers fs ++ '}' :: rest)))) =
        some ((k, v) :: fs, rest)) := by
  induction fuel with
  | zero =>
    refine ⟨?_, ?_, ?_⟩
    · intro v rest _ hf _
      exact absurd hf (by have := fuelVal_pos v; omega)
    · intro x xs rest _ _ hf
      rw [fuelElems] at hf
      exact absurd hf (by omega)
    · intro k v fs rest _ _ hf
      rw [fuelMembers] at hf
      exact absurd hf (by omega)
  | succ fuel ih =>
    obtain ⟨ihV, ihE, ihM⟩ := ih
    refine ⟨?_, ?_, ?_⟩
    · intro v rest hj hf hstop
      cases v with
      | vNull => simpa using pVal_null fuel rest
      | vBool b =>
        cases b with
        | true => simpa using pVal_true fuel rest
        | false => simpa using pVal_false fuel rest
      | vNum n =>
        by_cases hn : n < 0
        · rw [show strVal (JVal.vNum n) = '-' :: natToChars n.natAbs by
            rw [show strVal (JVal.vNum n) = intToChars n from rfl, intToChars,
              if_pos hn]]
          simp only [List.cons_append]
          rw [pVal_neg, pNat_digits _ _ hstop, Option.map_some']
          have he : -(Int.ofNat n.natAbs) = n := by
            rw [Int.ofNat_eq_natCast]; omega
          rw [he]
        · obtain ⟨c, cs, hc, hd⟩ := natToChars_head_digit n.natAbs
          rw [show strVal (JVal.vNum n) = natToChars n.natAbs by
            rw [show strVal (JVal.vNum n) = intToChars n from rfl, intToChars,
              if_neg hn]]
          rw [hc]
          simp only [List.cons_append]
          rw [pVal_digit hd, ← List.cons_append, ← hc,
            pNat_digits _ _ hstop, Option.map_some']
          have he : Int.ofNat n.natAbs = n := by
            rw [Int.ofNat_eq_natCast]; omega
          rw [he]
      | vStr s =>
        rw [show strVal (JVal.vStr s) ++ rest =
            '"' :: (escChars s.data ++ '"' :: rest) by
          simp [strVal]]
        rw [pVal_quote, pStr_escChars, Option.map_some']
      | vArr xs =>
        cases xs with
        | nil =>
          rw [show strVal (JVal.vArr []) ++ rest = '[' :: ']' :: rest by
            simp [strVal]]
          rw [pVal_arr, skipWs_cons (by decide)]
          rw [if_pos (by simp [headIs])]
          rfl
        | cons x xs =>
          have hj2 : isJSON x = true ∧ isJSONList xs = true := by
            simpa [isJSON, isJSONList] using hj
          rw [show strVal (JVal.vArr (x :: xs)) ++ rest =
              '[' :: (strVal x ++ (strElems xs ++ ']' :: rest)) by
            simp [strVal]]
          rw [pVal_arr]
          obtain ⟨c, cs, hc, hws, hbr, _⟩ := strVal_head x hj2.1
          rw [hc]
          simp only [List.cons_append]
          rw [skipWs_cons hws]
          rw [if_neg (by simp [headIs, hbr])]
          rw [show (c :: (cs ++ (strElems xs ++ ']' :: rest))) =
              strVal x ++ (strElems xs ++ ']' :: rest) by rw [hc]; simp]
          rw [ihE x xs rest hj2.1 hj2.2 (by rw [fuelVal] at hf; omega),
            Option.map_some']
      | vObj fs =>
        cases fs with
        | nil =>
          rw [show strVal (JVal.vObj []) ++ rest = '{' :: '}' :: rest by
            simp [strVal]]
          rw [pVal_obj, skipWs_cons (by decide)]
          rw [if_pos (by simp [headIs])]
          rfl
        | cons f fs =>
          obtain ⟨k, v⟩ := f
          have hj2 : isJSON v = true ∧ isJSONFields fs = true := by
            simpa [isJSON, isJSONFields] using hj
          rw [show strVal (JVal.vObj ((k, v) :: fs)) ++ rest =
              '{' :: ('"' :: (escChars k.data ++ '"' :: ':' ::
                (strVal v ++ (strMembers fs ++ '}' :: rest)))) by
            simp [strVal, strKey]]
          rw [pVal_obj, skipWs_cons (by decide)]
          rw [if_neg (by simp [headIs])]
          rw [ihM k v fs rest hj2.1 hj2.2 (by rw [fuelVal] at hf; omega),
            Option.map_some']
      | vUndef => exact absurd hj (by decide)
      | vNaN => exact absurd hj (by decide)
      | vBigInt n => exact absurd hj (by simp [isJSON])
      | vDate t => exact absurd hj (by simp [isJSON])
      | vURL u => exact absurd hj (by simp [isJSON])
    · intro x xs rest hjx hjxs hf
      have hstop2 : stopOk (strElems xs ++ ']' :: rest) = true := by
        cases xs with
        | nil =>
          simp only [strElems, List.nil_append, stopOk]
          decide
        | cons y ys =>
          simp only [strElems, List.cons_append, stopOk]
          decide
      rw [pElems_succ,
        ihV x (strElems xs ++ ']' :: rest) hjx
          (by rw [fuelElems] at hf; have := fuelVal_pos x; omega) hstop2]
      cases xs with
      | nil =>
        simp only [strElems, List.nil_append]
        rw [skipWs_cons (by decide)]
        simp [headIs]
      | cons y ys =>
        have hj3 : isJSON y = true ∧ isJSONList ys = true := by
          simpa [isJSONList] using hjxs
        simp only [strElems, List.cons_append]
        rw [skipWs_cons (by decide)]
        simp only [headIs, List.tail_cons]
        rw [if_pos (by decide)]
        rw [show (strVal y ++ strElems ys) ++ ']' :: rest =
            strVal y ++ (strElems ys ++ ']' :: rest) by simp]
        rw [ihE y ys rest hj3.1 hj3.2 (by rw [fuelElems] at hf; omega),
          Option.map_some']
    · intro k v fs rest hjv hjfs hf
      rw [pMembers_quote, pStr_escChars]
      have hstop3 : stopOk (strMembers fs ++ '}' :: rest) = true := by
        cases fs with
        | nil =>
          simp only [strMembers, List.nil_append, stopOk]
          decide
        | cons f fs2 =>
          obtain ⟨k2, v2⟩ := f
          simp only [strMembers, List.cons_append, stopOk]
          decide
      simp only [skipWs_cons (show isWsCh ':' = false by decide), headIs,
        List.tail_cons]
      rw [if_pos (by decide)]
      rw [ihV v (strMembers fs ++ '}' :: rest) hjv
        (by rw [fuelMembers] at hf; omega) hstop3]
      cases fs with
      | nil =>
        simp only [strMembers, List.nil_append]
        rw [skipWs_cons (by decide)]
        simp [headIs]
      | cons f fs2 =>
        obtain ⟨k2, v2⟩ := f
        have hj4 : isJSON v2 = true ∧ isJSONFields fs2 = true := by
          simpa [isJSONFields] using hjfs
        simp only [strMembers, List.cons_append]
        rw [skipWs_cons (by decide)]
        simp only [headIs, List.tail_cons]
        rw [if_pos (by decide)]
        rw [show (strKey k2 ++ ':' :: strVal v2 ++ strMembers fs2) ++ '}' :: rest =
            '"' :: (escChars k2.data ++ '"' :: ':' ::
              (strVal v2 ++ (strMembers fs2 ++ '}' :: rest))) by
          simp [strKey]]
        rw [ihM k2 v2 fs2 rest hj4.1 hj4.2
          (by rw [fuelMembers] at hf; omega), Option.map_some']

/-- The fuel needed to parse a printed value never exceeds the printed
length: each parser activation consumes at least one character. -/
lemma fuel_le_aux (n : Nat) :
    (∀ v, isJSON v = true → fuelVal v ≤ n →
      fuelVal v ≤ (strVal v).length) ∧
    (∀ xs, isJSONList xs = true → fuelElems xs ≤ n →
      fuelElems xs ≤ (strElems xs).length) ∧
    (∀ fs, isJSONFields fs = true → fuelMembers fs ≤ n →
      fuelMembers fs ≤ (strMembers fs).length) := by
  induction n with
  | zero =>
    refine ⟨?_, ?_, ?_⟩
    · intro v _ hf
      exact absurd hf (by have := fuelVal_pos v; omega)
    · intro xs _ hf
      cases xs with
      | nil => simp [fuelElems]
      | cons x xs => rw [fuelElems] at hf; exact absurd hf (by omega)
    · intro fs _ hf
      cases fs with
      | nil => simp [fuelMembers]
      | cons f fs =>
        obtain ⟨k, v⟩ := f
        rw [fuelMembers] at hf
        exact absurd hf (by omega)
  | succ n ih =>
    obtain ⟨ihV, ihE, ihM⟩ := ih
    refine ⟨?_, ?_, ?_⟩
    · intro v hj hf
      cases v with
      | vNull => simp [fuelVal, strVal]
      | vBool b => cases b <;> simp [fuelVal, strVal]
      | vNum m =>
        have : strVal (JVal.vNum m) ≠ [] := by
          rw [show strVal (JVal.vNum m) = intToChars m from rfl, intToChars]
          by_cases hm : m < 0
          · rw [if_pos hm]; exact List.cons_ne_nil _ _
          · rw [if_neg hm]; exact natToChars_ne_nil _
        have hlen : 1 ≤ (strVal (JVal.vNum m)).length := by
          cases he : strVal (JVal.vNum m) with
          | nil => exact absurd he this
          | cons a l => simp
        rw [show fuelVal (JVal.vNum m) = 1 from rfl]
        omega
      | vStr s =>
        rw [show fuelVal (JVal.vStr s) = 1 from rfl]
        simp only [strVal, List.length_append, List.length_cons]
        omega
      | vArr xs =>
        rw [fuelVal]
        cases xs with
        | nil => simp [strVal, fuelElems]
        | cons x xs =>
          have hb : fuelElems (x :: xs) ≤ n := by rw [fuelVal] at hf; omega
          have hE := ihE (x :: xs) (by simpa [isJSON] using hj) hb
          simp only [strElems, List.length_cons, List.length_append] at hE
          simp only [strVal, List.length_cons, List.length_append,
            List.length_singleton]
          omega
      | vObj fs =>
        rw [fuelVal]
        cases fs with
        | nil => simp [strVal, fuelMembers]
        | cons f fs =>
          obtain ⟨k, v⟩ := f
          have hb : fuelMembers ((k, v) :: fs) ≤ n := by
            rw [fuelVal] at hf; omega
          have hM := ihM ((k, v) :: fs) (by simpa [isJSON] using hj) hb
          simp only [strMembers, List.length_cons, List.length_append] at hM
          simp only [strVal, List.length_cons, List.length_append,
            List.length_singleton]
          omega
      | vUndef => exact absurd hj (by decide)
      | vNaN => exact absurd hj (by decide)
      | vBigInt m => exact absurd hj (by simp [isJSON])
      | vDate t => exact absurd hj (by simp [isJSON])
      | vURL u => exact absurd hj (by simp [isJSON])
    · intro xs hj hf
      cases xs with
      | nil => simp [fuelElems, strElems]
      | cons x xs =>
        have hj2 : isJSON x = true ∧ isJSONList xs = true := by
          simpa [isJSONList] using hj
        have hvx := fuelVal_pos x
        rw [fuelElems] at hf
        have h1 := ihV x hj2.1 (by omega)
        have h2 := ihE xs hj2.2 (by omega)
        rw [fuelElems]
        simp only [strElems, List.length_cons, List.length_append]
        omega
    · intro fs hj hf
      cases fs with
      | nil => simp [fuelMembers, strMembers]
      | cons f fs =>
        obtain ⟨k, v⟩ := f
        have hj2 : isJSON v = true ∧ isJSONFields fs = true := by
          simpa [isJSONFields] using hj
        have hvv := fuelVal_pos v
        rw [fuelMembers] at hf
        have h1 := ihV v hj2.1 (by omega)
        have h2 := ihM fs hj2.2 (by omega)
        rw [fuelMembers]
        simp only [strMembers, List.length_cons, List.length_append]
        omega

lemma fuelVal_le_length (v : JVal) (h : isJSON v = true) :
    fuelVal v ≤ (strVal v).length :=
  (fuel_le_aux (fuelVal v)).1 v h le_rfl

/-- `JSON.parse` is a left inverse of `JSON.stringify` on JSON values. -/
lemma jsonParse_strVal (v : JVal) (h : isJSON v = true) :
    jsonParse (String.mk (strVal v)) = some v := by
  have hp : pVal ((strVal v).length + 1) (strVal v) = some (v, []) := by
    have hr := (parse_print_aux ((strVal v).length + 1)).1 v [] h
      (by have := fuelVal_le_length v h; omega) rfl
    simpa using hr
  simp [jsonParse, hp, skipWs]

/-! ## The structured (JSON) decode with its string fallback -/

/-- `attribute.replace(/"/g, '\\"')` on one character: only double quotes
are escaped; backslashes and control characters pass through untouched. -/
def escQuoteChar (c : Char) : List Char :=
  if c = '"' then ['\\', '"'] else [c]

/-- `` `"${attribute.replace(/"/g, '\\"')}"` ``: wrap the raw text in quotes
after escaping embedded quotes. -/
def quoteWrap (s : String) : List Char :=
  '"' :: (s.data.map escQuoteChar).flatten ++ ['"']

/-- The JSON branch of `parseAttribute`:
`try { return JSON.parse(attribute) } catch (e) { return
JSON.parse(`"${attribute.replace(/"/g, '\\"')}"`) }` — `none` means the
fallback parse itself threw and the error propagates. -/
def jsonDecode (s : String) : Option JVal :=
  match jsonParse s with
  | some v => some v
  | none => jsonParse (String.mk (quoteWrap s))

/-- Raw attribute text whose fallback parse is safe: no backslash and no
control characters. The library's fallback escapes only quotes, so these
are exactly the characters that can break the built string literal. -/
def benignText (s : String) : Bool :=
  s.data.all (fun c => !(c == '\\') && decide (32 ≤ c.toNat))

lemma pStr_escQuote (cs rest : List Char)
    (h : ∀ c ∈ cs, ¬(c = '\\') ∧ 32 ≤ c.toNat) :
    pStr ((cs.map escQuoteChar).flatten ++ '"' :: rest) = some (cs, rest) := by
  induction cs with
  | nil => simpa using pStr_quote rest
  | cons c cs ih =>
    have hc := h c (List.mem_cons_self c cs)
    have ih2 := ih (fun d hd => h d (List.mem_cons_of_mem c hd))
    by_cases hq : c = '"'
    · subst hq
      rw [show ((('"' : Char) :: cs).map escQuoteChar).flatten ++ '"' :: rest =
          '\\' :: '"' :: ((cs.map escQuoteChar).flatten ++ '"' :: rest) by
        simp [escQuoteChar]]
      rw [pStr_bs, pEsc_code (by decide) (show escCode '"' = some '"' from rfl),
        ih2, Option.map_some']
    · rw [show ((c :: cs).map escQuoteChar).flatten ++ '"' :: rest =
          c :: ((cs.map escQuoteChar).flatten ++ '"' :: rest) by
        simp [escQuoteChar, hq]]
      rw [pStr_plain hq hc.1 (by omega), ih2, Option.map_some']

/-- For benign raw text the fallback string-literal parse always succeeds
and returns the raw text itself. -/
lemma jsonParse_quoteWrap (s : String) (h : benignText s = true) :
    jsonParse (String.mk (quoteWrap s)) = some (.vStr s) := by
  have hchars : ∀ c ∈ s.data, ¬(c = '\\') ∧ 32 ≤ c.toNat := by
    intro c hc
    have hall := List.all_eq_true.1 h c hc
    simp only [Bool.and_eq_true, Bool.not_eq_true', beq_eq_false_iff_ne,
      ne_eq, decide_eq_true_eq] at hall
    exact hall
  have hp : pVal ((quoteWrap s).length + 1) (quoteWrap s) =
      some (.vStr s, []) := by
    rw [show (quoteWrap s).length + 1 = ((quoteWrap s).length) + 1 from rfl]
    rw [show quoteWrap s =
      '"' :: ((s.data.map escQuoteChar).flatten ++ '"' :: []) by
        simp [quoteWrap]]
    rw [pVal_quote, pStr_escQuote _ _ hchars, Option.map_some']
  simp [jsonParse, hp, skipWs]

/-! ## The host element and the platform converters

A host element, as far as the codec is concerned: its own properties and its
string attributes (`getAttribute`/`hasAttribute`). Platform pieces are
modelled at the granularity the library relies on:

* `new Date(text)` / date stringification: calendar arithmetic lives in the
  JS engine, outside this repository, so a canonical date string is
  represented abstractly as `'T'` followed by the epoch-millisecond
  numeral, and `dateParse` accepts exactly those; any other text is an
  invalid date (sending `new Date(attribute)` to the numeric-timestamp
  fallback).
* `new URL(text, location.origin)`: an absolute `http(s)` URL resolves to
  itself, anything else is resolved against the fixed origin. URL values
  are their href text.
-/

structure Host : Type where
  props : List (String × JVal)
  attrs : List (String × String)

def Host.getAttribute (node : Host) (name : String) : Option String :=
  (node.attrs.find? (fun a => a.1 == name)).map (fun a => a.2)

def Host.hasAttribute (node : Host) (name : String) : Bool :=
  (node.getAttribute name).isSome

/-- `key in node` (the seed check of `createPropertiesDescriptors`). -/
def Host.hasProp (node : Host) (key : String) : Bool :=
  (node.props.find? (fun p => p.1 == key)).isSome

/-- `node[key]` for a present own property. -/
def Host.getProp (node : Host) (key : String) : JVal :=
  ((node.props.find? (fun p => p.1 == key)).map (fun p => p.2)).getD .vUndef

def dateFormat (t : Int) : String := String.mk ('T' :: intToChars t)

def dateParse (s : String) : Option Int :=
  match s.data with
  | 'T' :: rest => jsParseIntChars rest
  | _ => none

def jsOrigin : String := "http://localhost"

def chPrefix : List Char → List Char → Bool
  | [], _ => true
  | _, [] => false
  | p :: ps, c :: cs => p == c && chPrefix ps cs

def isAbsURL (s : String) : Bool :=
  chPrefix "http://".data s.data || chPrefix "https://".data s.data

def urlResolve (s : String) : String :=
  if isAbsURL s then s else jsOrigin ++ "/" ++ s

/-- One branch of the `switch (converter)` in `parseAttribute`, applied to
the raw attribute text. The boolean-flag converter ignores the text and
checks attribute presence (under the explicit attribute name if given, else
the property name). `cObject` models a default-valued object/array whose
constructor lacks `parse`: the call throws. -/
def decodeValue (node : Host) (key : String) (attributeName : Option String)
    (conv : Conv) (attrText : String) : Option JVal :=
  match conv with
  | .cJSON => jsonDecode attrText
  | .cBool =>
    some (.vBool (match attributeName with
      | some a => node.hasAttribute a
      | none => node.hasAttribute key))
  | .cURL => some (.vURL (urlResolve attrText))
  | .cDate =>
    some (match dateParse attrText with
      | some t => .vDate (some t)
      | none =>
        match jsNumber attrText with
        | .vNum n => .vDate (some n)
        | _ => .vDate none)
  | .cStr => some (.vStr attrText)
  | .cNum => some (jsNumber attrText)
  | .cBigInt => (jsParseIntChars attrText.data).map .vBigInt
  | .cObject => none

/-- JavaScript `!attribute` for the result of `getAttribute`: absent
(`null`) or the empty string. -/
def attrFalsy : Option String → Bool
  | none => true
  | some s => s == ""

/-- The attribute looked up by `parseAttribute`: the definition's explicit
attribute name if given, else the property name itself. -/
def attrLookup (node : Host) (key : String) (config : PropertyConfig) :
    Option String :=
  match config.attributeName with
  | some a => node.getAttribute a
  | none => node.getAttribute key

/-- `parseAttribute(node, key, config)`: resolve the converter, return the
declared default when the attribute is absent or empty (unless the
converter is the boolean flag), else decode the raw text with the resolved
converter. `none` models an exception escaping the call. -/
def parseAttribute (node : Host) (key : String) (config : PropertyConfig) :
    Option JVal :=
  let attrText := attrLookup node key config
  let conv := resolveConverter config
  if attrFalsy attrText && !(conv == Conv.cBool) then some config.initial
  else decodeValue node key config.attributeName conv (attrText.getD "")

/-- The seed computed by `createPropertiesDescriptors` for one schema entry:
`key in newBase ? newBase[key] : parseAttribute(newBase, key, config)`. -/
def seedValue (node : Host) (key : String) (config : PropertyConfig) :
    Option JVal :=
  if node.hasProp key then some (node.getProp key)
  else parseAttribute node key config

lemma parseAttribute_attr_present {node : Host} {key : String}
    {config : PropertyConfig} {s : String}
    (ha : attrLookup node key config = some s) (hne : (s == "") = false) :
    parseAttribute node key config =
      decodeValue node key config.attributeName (resolveConverter config) s := by
  simp [parseAttribute, ha, attrFalsy, hne]

/-! ## C5: the structured-parse fallback -/

/-- C5 (counterexample): the claim as stated is false. The fallback escapes
only double quotes, so raw attribute text consisting of a single backslash
fails the structured parse and then also fails the fallback parse (the
backslash swallows the closing quote of the built literal), and the error
propagates out of the decode: recovery is not total. -/
theorem C5_fallback_not_total :
    jsonDecode (String.mk ['\\']) = none ∧
    parseAttribute ⟨[], [("k", String.mk ['\\'])]⟩ "k"
      { initial := .vNull, converter := some .cJSON } = none :=
  ⟨rfl, rfl⟩

/-- C5 (amended): when the structured (JSON-like) parse of the raw attribute
text fails, the codec falls back to parsing the text as a plain quoted
string literal with embedded quote characters escaped; for raw text
containing no backslash and no control characters this recovery always
succeeds and yields the raw text as a string, so such malformed
structured-literal text never propagates an error out of decode. (Raw text
with a backslash or a control character can still make the fallback itself
throw, as the counterexample shows.) -/
theorem C5_fallback_recovers_benign (s : String) (h : benignText s = true) :
    jsonDecode s = some (match jsonParse s with
      | some v => v
      | none => JVal.vStr s) := by
  cases hp : jsonParse s with
  | some v => simp [jsonDecode, hp]
  | none => simp [jsonDecode, hp, jsonParse_quoteWrap s h]

/-- C5 witness: the unquoted word `hello` is not a structured literal, and
decodes to the string `"hello"` through the fallback. -/
theorem C5_fallback_recovers_benign_witness :
    jsonDecode "hello" = some (match jsonParse "hello" with
      | some v => v
      | none => JVal.vStr "hello") :=
  C5_fallback_recovers_benign "hello" (by decide)

/-! ## C2: seeding of property cells -/

def hostABC : Host :=
  ⟨[("a", .vNum 1), ("b", .vNum 2), ("c", .vNum 3)], []⟩

/-- `voidProp(Number)`: the constructor argument only drives the TypeScript
type inference; `void initial` makes the runtime config `{ initial:
undefined }` with no converter. -/
def voidNumProp : PropertyConfig := { initial := .vUndef }

/-- C2: for every schema entry, the seed value of the property's cell is the
host's existing value when the property name already resolves on the host;
otherwise the attribute codec's decode for the matching attribute (explicit
attribute name if given, else the property name); and when no matching
attribute is present (or it is empty) and the resolved converter is not the
boolean flag, that decode returns the declared default. In particular,
installing the schema `{a: default 0, b: default 0, c: numeric converter
with no initial}` on a host pre-populated with `a=1, b=2, c=3` seeds the
cells to `1, 2, 3`. -/
theorem C2_seed_precedence (node : Host) (key : String)
    (config : PropertyConfig) :
    (node.hasProp key = true →
      seedValue node key config = some (node.getProp key)) ∧
    (node.hasProp key = false →
      seedValue node key config = parseAttribute node key config) ∧
    (node.hasProp key = false → attrFalsy (attrLookup node key config) = true →
      resolveConverter config ≠ .cBool →
      seedValue node key config = some config.initial) ∧
    (seedValue hostABC "a" { initial := .vNum 0 } = some (.vNum 1) ∧
     seedValue hostABC "b" { initial := .vNum 0 } = some (.vNum 2) ∧
     seedValue hostABC "c" voidNumProp = some (.vNum 3)) := by
  refine ⟨?_, ?_, ?_, rfl, rfl, rfl⟩
  · intro h
    simp [seedValue, h]
  · intro h
    simp [seedValue, h]
  · intro h hfal hbool
    rw [seedValue, if_neg (by simp [h]), parseAttribute]
    have hb : (resolveConverter config == Conv.cBool) = false := by
      simpa using hbool
    simp [hfal, hb]

/-- C2 witness: an existing host value takes precedence over the schema
default, and on a bare host the declared default seeds the cell. -/
theorem C2_seed_precedence_witness :
    seedValue hostABC "a" { initial := JVal.vNum 0 } =
      some (Host.getProp hostABC "a") ∧
    seedValue ⟨[], []⟩ "x" { initial := JVal.vNum 7 } = some (JVal.vNum 7) :=
  ⟨(C2_seed_precedence hostABC "a" { initial := JVal.vNum 0 }).1 rfl,
   (C2_seed_precedence ⟨[], []⟩ "x" { initial := JVal.vNum 7 }).2.2.1
     rfl rfl (by decide)⟩

/-! ## C3: the attributeChanged listener -/

/-- `parseAttribute(node, key, newValue)` with the raw string in the config
position: reading `.attributeName`, `.converter` and `.initial` off a
JavaScript string yields `undefined` for each, so the call behaves as a
config with no fields at all. -/
def dynStringConfig : PropertyConfig :=
  { initial := .vUndef, attributeName := none, converter := none }

/-- The `attributeChanged` listener of `create`:
`const [key, setter] = [attr, setters[attr]] || Object.entries(setters)
.find(([, [, { attributeName }]]) => attributeName === attr) || [];`
The array literal `[attr, setters[attr]]` is always truthy, so both `||`
fallbacks — the search by explicit attribute name, and the empty tuple —
are dead code: the lookup is by own property name only, and an unmatched
event is silently ignored (`if (!setter) return`). When a setter is found
the listener calls `setter[0].next(parseAttribute(node, key, newValue))`,
passing the new raw value where the property config belongs. Result: the
cell write performed, as `some (key, decoded)` — `decoded = none` when the
decode throws — or `none` when the event is ignored. -/
def handleAttributeChanged (node : Host)
    (schema : List (String × PropertyConfig)) (attr newValue : String) :
    Option (String × Option JVal) :=
  if (schema.find? (fun e => e.1 == attr)).isSome then
    some (attr, parseAttribute node attr dynStringConfig)
  else none

/-- Modelled from the spec: "resolve the property name matching the reported
attribute (own-name match first, else search the definitions for a matching
explicit attribute name); if none matches, ignore silently; else run the
Attribute Codec and write the decoded value into that property's cell" —
decoding the reported new raw value with the matched property's own
definition. -/
def specHandleAttributeChanged (node : Host)
    (schema : List (String × PropertyConfig)) (attr newValue : String) :
    Option (String × Option JVal) :=
  let own := (schema.find? (fun e => e.1 == attr)).map (fun e => e.1)
  let byName := (schema.find? (fun e => e.2.attributeName == some attr)).map
    (fun e => e.1)
  match own.orElse (fun _ => byName) with
  | none => none
  | some key =>
    match schema.find? (fun e => e.1 == key) with
    | none => none
    | some e =>
      some (key, decodeValue node key e.2.attributeName
        (resolveConverter e.2) newValue)

def schemaFoo : List (String × PropertyConfig) :=
  [("foo", { initial := .vNum 0, attributeName := some "data-foo" })]

def schemaBar : List (String × PropertyConfig) :=
  [("bar", { initial := .vNum 0, converter := some .cDate })]

def hostBar : Host := ⟨[], [("bar", "T5")]⟩

/-- C3: the handler diverges from the claim, and the source itself contains
the intended-but-dead code. (i) An attribute matched only by a definition's
explicit attribute name (`data-foo` for property `foo`) is silently dropped
by the code, while the claim resolves it to `foo` and writes the decoded
new value `5`. (ii) Even on an own-name match (`bar`, declared with the
`Date` converter, DOM attribute text `T5`), the code decodes the host's
current attribute with the JSON fallback — because the raw new value sits
in the config parameter — yielding the string `"T5"`, where the claim
decodes the new raw value with the property's definition, yielding the date
with timestamp 5. -/
theorem C3_attribute_changed_handler_bug :
    handleAttributeChanged ⟨[], []⟩ schemaFoo "data-foo" "5" = none ∧
    specHandleAttributeChanged ⟨[], []⟩ schemaFoo "data-foo" "5" =
      some ("foo", some (.vNum 5)) ∧
    handleAttributeChanged hostBar schemaBar "bar" "T5" =
      some ("bar", some (.vStr "T5")) ∧
    specHandleAttributeChanged hostBar schemaBar "bar" "T5" =
      some ("bar", some (.vDate (some 5))) :=
  ⟨rfl, rfl, rfl, rfl⟩

/-! ## C8: stringify/decode round trips -/

lemma intToChars_ne_nil (n : Int) : intToChars n ≠ [] := by
  rw [intToChars]
  by_cases h : n < 0
  · rw [if_pos h]; exact List.cons_ne_nil _ _
  · rw [if_neg h]; exact natToChars_ne_nil _

lemma mk_ne_empty {l : List Char} (h : l ≠ []) :
    ((String.mk l) == "") = false := by
  rw [beq_eq_false_iff_ne]
  intro he
  exact h (congrArg String.data he)

lemma dateParse_dateFormat (t : Int) : dateParse (dateFormat t) = some t := by
  simp [dateParse, dateFormat, jsParseIntChars_intToChars]

/-- C8: for each built-in converter, decoding the attribute text produced by
stringifying a value of the converter's type returns a value equal to the
original. JSON values round-trip through `JSON.stringify`/`JSON.parse`;
boolean flags are encoded as attribute presence and decoded by presence;
numbers through `String(n)`/`Number(s)`; URLs by their (absolute) href; and
dates through their canonical string. -/
theorem C8_stringify_decode_round_trip :
    (∀ v : JVal, isJSON v = true →
      parseAttribute ⟨[], [("k", String.mk (strVal v))]⟩ "k"
        { initial := .vNull, converter := some .cJSON } = some v) ∧
    (∀ b : Bool,
      parseAttribute ⟨[], if b then [("k", "")] else []⟩ "k"
        { initial := .vNull, converter := some .cBool } = some (.vBool b)) ∧
    (∀ n : Int,
      parseAttribute ⟨[], [("k", String.mk (intToChars n))]⟩ "k"
        { initial := .vNull, converter := some .cNum } = some (.vNum n)) ∧
    (∀ href : String, isAbsURL href = true →
      parseAttribute ⟨[], [("k", href)]⟩ "k"
        { initial := .vNull, converter := some .cURL } = some (.vURL href)) ∧
    (∀ t : Int,
      parseAttribute ⟨[], [("k", dateFormat t)]⟩ "k"
        { initial := .vNull, converter := some .cDate } =
        some (.vDate (some t))) := by
  refine ⟨?_, ?_, ?_, ?_, ?_⟩
  · intro v hj
    obtain ⟨c, cs, hc, -, -, -⟩ := strVal_head v hj
    have hne : ((String.mk (strVal v)) == "") = false :=
      mk_ne_empty (by rw [hc]; exact List.cons_ne_nil _ _)
    rw [parseAttribute_attr_present
      (show attrLookup ⟨[], [("k", String.mk (strVal v))]⟩ "k"
          { initial := .vNull, converter := some .cJSON } =
          some (String.mk (strVal v)) from rfl) hne]
    simp [decodeValue, resolveConverter, jsonDecode, jsonParse_strVal v hj]
  · intro b
    cases b <;> rfl
  · intro n
    have hne : ((String.mk (intToChars n)) == "") = false :=
      mk_ne_empty (intToChars_ne_nil n)
    rw [parseAttribute_attr_present
      (show attrLookup ⟨[], [("k", String.mk (intToChars n))]⟩ "k"
          { initial := .vNull, converter := some .cNum } =
          some (String.mk (intToChars n)) from rfl) hne]
    simp [decodeValue, resolveConverter, jsNumber, intToChars_ne_nil n,
      jsParseIntChars_intToChars]
  · intro href habs
    have hne : (href == "") = false := by
      rw [beq_eq_false_iff_ne]
      intro he
      subst he
      exact absurd habs (by decide)
    rw [parseAttribute_attr_present
      (show attrLookup ⟨[], [("k", href)]⟩ "k"
          { initial := .vNull, converter := some .cURL } =
          some href from rfl) hne]
    simp [decodeValue, resolveConverter, urlResolve, habs]
  · intro t
    have hne : (dateFormat t == "") = false :=
      mk_ne_empty (by exact List.cons_ne_nil _ _)
    rw [parseAttribute_attr_present
      (show attrLookup ⟨[], [("k", dateFormat t)]⟩ "k"
          { initial := .vNull, converter := some .cDate } =
          some (dateFormat t) from rfl) hne]
    simp [decodeValue, resolveConverter, dateParse_dateFormat]

/-- C8 witness: a concrete round trip for each converter. -/
theorem C8_stringify_decode_round_trip_witness :
    parseAttribute
      ⟨[], [("k", String.mk (strVal (JVal.vObj [("a", JVal.vNum 1)])))]⟩ "k"
      { initial := .vNull, converter := some .cJSON } =
      some (JVal.vObj [("a", JVal.vNum 1)]) ∧
    parseAttribute ⟨[], [("k", "")]⟩ "k"
      { initial := .vNull, converter := some .cBool } = some (.vBool true) ∧
    parseAttribute ⟨[], [("k", String.mk (intToChars (-12)))]⟩ "k"
      { initial := .vNull, converter := some .cNum } = some (.vNum (-12)) ∧
    parseAttribute ⟨[], [("k", "http://x")]⟩ "k"
      { initial := .vNull, converter := some .cURL } =
      some (.vURL "http://x") ∧
    parseAttribute ⟨[], [("k", dateFormat 99)]⟩ "k"
      { initial := .vNull, converter := some .cDate } =
      some (.vDate (some 99)) :=
  ⟨C8_stringify_decode_round_trip.1 (JVal.vObj [("a", JVal.vNum 1)]) rfl,
   C8_stringify_decode_round_trip.2.1 true,
   C8_stringify_decode_round_trip.2.2.1 (-12),
   C8_stringify_decode_round_trip.2.2.2.1 "http://x" rfl,
   C8_stringify_decode_round_trip.2.2.2.2 99⟩

end Hyperplane
